import Mathlib

/-!
# NGCluster evaluation metrics — verification development

Shallow embedding of `ngcluster/evaluate.py` (functions `fom`, `aggregate_fom`,
`rand_index`, `silhouette_widths`/`compute_widths`) and of the companion
`silhouette_stats` consumed by `ngcluster/main.py`.

Modelling conventions:
* numpy float values are modelled as exact rationals (`ℚ`); the real-valued
  results produced through `math.sqrt` are modelled in `ℝ` via `Real.sqrt`
  applied to the rational core values;
* every Python-level failure is an explicit `Except` error:
  `ClusterEvaluationError` raised by `fom`, `ZeroDivisionError` from float
  division by zero (Python itself, and numba-jitted code, whose default
  `error_model='python'` raises on float division by zero rather than
  producing IEEE inf/nan), `ValueError` from `math.sqrt` of a negative
  number and from `ndarray.max()` / `np.empty` on invalid shapes;
* IEEE non-finite results that arise without a division by zero (here: only
  `inf/inf = nan`, when the silhouette minimum `b` stays at `np.inf`) are
  modelled by an explicit `nan` constructor.
-/

namespace NGCluster

/-- The failure outcomes of the evaluation functions. -/
inductive EvalErr
  /-- `ClusterEvaluationError` from `ngcluster.evaluate`. -/
  | clusterEvaluationError
  /-- Python / numba (error model `python`) `ZeroDivisionError`. -/
  | zeroDivisionError
  /-- `ValueError: math domain error` from `math.sqrt` of a negative number. -/
  | mathDomainError
  /-- `ValueError` from `ndarray.max()` on an empty array or `np.empty` with a
  negative size. -/
  | valueError
  deriving DecidableEq, Repr

/-- `hidden_data[clusters == c]`: the hidden values of the items whose cluster
label equals `c` (in item order). -/
def clusterData (clusters : List ℤ) (hidden : List ℚ) (c : ℤ) : List ℚ :=
  (clusters.zip hidden).filterMap (fun p => if p.1 = c then some p.2 else none)

/-- `ndarray.mean()` (for an empty array numpy yields NaN, but the only use
sites multiply the mean back into an empty sum, so the rational junk value
`0/0 = 0` is observationally equal there; see `ssdOf`). -/
def listMean (l : List ℚ) : ℚ := l.sum / (l.length : ℚ)

/-- `((cluster_data - cluster_data.mean()) ** 2).sum()`.  For an empty
cluster this is a sum over an empty array, i.e. `0`, exactly as in numpy
(where the NaN mean is never added to anything). -/
def ssdOf (l : List ℚ) : ℚ := (l.map (fun x => (x - listMean l) ^ 2)).sum

/-- `clusters.max()` (meaningful only for nonempty input, like
`ndarray.max()`; callers guard emptiness). -/
def maxLabel (clusters : List ℤ) : ℤ := clusters.foldl max (clusters.headD 0)

/-- `num_clusters = clusters.max() + 1` (the `k` of the spec). -/
def numClusters (clusters : List ℤ) : ℤ := maxLabel clusters + 1

/-- The number of clustered items: count of labels `≥ 0` (the `N` of the
spec's FOM description, "the number of items with label >= 0"). -/
def specN (clusters : List ℤ) : ℕ := clusters.countP (fun x => decide (0 ≤ x))

/-- The spec's `S`: "the sum over cluster IDs c [0..max(clusters)] of the
squared deviations of the hidden_data values with label c from their mean". -/
def specSSD (clusters : List ℤ) (hidden : List ℚ) : ℚ :=
  ((List.range (numClusters clusters).toNat).map
    (fun c : ℕ => ssdOf (clusterData clusters hidden (c : ℤ)))).sum

/-- The accumulation loop of `fom` (`evaluate.py` lines 48–57): total sum of
squared deviations over the clusters `0 .. num_clusters - 1`. -/
def fomSSD (clusters : List ℤ) (hidden : List ℚ) : ℚ :=
  ((List.range (numClusters clusters).toNat).map
    (fun c : ℕ => ssdOf (clusterData clusters hidden (c : ℤ)))).sum

/-- The accumulation loop of `fom`: `num_clustered_genes`, the total length of
the per-cluster subsets over the clusters `0 .. num_clusters - 1`. -/
def fomCount (clusters : List ℤ) (hidden : List ℚ) : ℕ :=
  ((List.range (numClusters clusters).toNat).map
    (fun c : ℕ => (clusterData clusters hidden (c : ℤ)).length)).sum

/-- The rational core of `fom(clusters, hidden_data, adjust)`
(`evaluate.py` lines 17–68).  On success it returns the pair
`(ssd / num_clustered_genes, r)` where `r` is the argument of the adjustment
square root (`(n - k) / n` if `adjust`, else `1`); the real-valued result of
the Python function is `sqrt(ssd/n) / sqrt(r)` (see `fom` below).  Every
Python-level exception of the source is an explicit error:
* `ndarray.max()` on an empty array raises `ValueError`;
* `ssd / float(num_clustered_genes)` with a zero count raises
  `ZeroDivisionError`;
* `num_clustered_genes == num_clusters` raises `ClusterEvaluationError`;
* `math.sqrt` of the negative `(n - k)/n` (possible when empty clusters make
  `n < k`) raises `ValueError: math domain error`. -/
def fomCore (clusters : List ℤ) (hidden : List ℚ) (adjust : Bool) :
    Except EvalErr (ℚ × ℚ) :=
  if clusters = [] then .error .valueError
  else
    let k : ℤ := numClusters clusters
    let ssd : ℚ := fomSSD clusters hidden
    let n : ℕ := fomCount clusters hidden
    if n = 0 then .error .zeroDivisionError
    else if adjust then
      if (n : ℤ) = k then .error .clusterEvaluationError
      else if ((n : ℚ) - (k : ℚ)) / (n : ℚ) < 0 then .error .mathDomainError
      else .ok (ssd / (n : ℚ), ((n : ℚ) - (k : ℚ)) / (n : ℚ))
    else .ok (ssd / (n : ℚ), 1)

/-- `fom(clusters, hidden_data, adjust)`: the real value
`sqrt(ssd / n) / sqrt((n - k)/n)` (the divisor is `sqrt 1 = 1` when `adjust`
is false), or the propagated error. -/
noncomputable def fom (clusters : List ℤ) (hidden : List ℚ) (adjust : Bool) :
    Except EvalErr ℝ :=
  (fomCore clusters hidden adjust).map
    (fun p => Real.sqrt (p.1 : ℝ) / Real.sqrt (p.2 : ℝ))

/-! ### Basic lemmas about `maxLabel` and the per-cluster subsets -/

theorem foldl_max_init_le (l : List ℤ) (init : ℤ) : init ≤ l.foldl max init := by
  induction l generalizing init with
  | nil => simp
  | cons a t ih => exact le_trans (le_max_left init a) (ih (max init a))

theorem le_foldl_max (l : List ℤ) (init : ℤ) (x : ℤ) (hx : x ∈ l) :
    x ≤ l.foldl max init := by
  induction l generalizing init with
  | nil => cases hx
  | cons a t ih =>
    rcases List.mem_cons.mp hx with h | h
    · subst h
      exact le_trans (le_max_right init x) (foldl_max_init_le t _)
    · exact ih (max init a) h

theorem le_maxLabel (cs : List ℤ) (x : ℤ) (hx : x ∈ cs) : x ≤ maxLabel cs :=
  le_foldl_max cs (cs.headD 0) x hx

theorem foldl_max_mem (l : List ℤ) (init : ℤ) :
    l.foldl max init = init ∨ l.foldl max init ∈ l := by
  induction l generalizing init with
  | nil => exact Or.inl rfl
  | cons a t ih =>
    rcases ih (max init a) with h | h
    · rcases max_choice init a with h' | h'
      · exact Or.inl (by rw [List.foldl_cons, h, h'])
      · exact Or.inr (by rw [List.foldl_cons, h, h']; exact List.mem_cons_self a t)
    · exact Or.inr (List.mem_cons_of_mem a h)

theorem maxLabel_mem (cs : List ℤ) (h : cs ≠ []) : maxLabel cs ∈ cs := by
  unfold maxLabel
  rcases foldl_max_mem cs (cs.headD 0) with h' | h'
  · rw [h']
    cases cs with
    | nil => exact absurd rfl h
    | cons a t => exact List.mem_cons_self a t
  · exact h'

theorem clusterData_cons (a : ℤ) (b : ℚ) (t : List ℤ) (u : List ℚ) (c : ℤ) :
    clusterData (a :: t) (b :: u) c =
      if a = c then b :: clusterData t u c else clusterData t u c := by
  by_cases h : a = c <;> simp [clusterData, List.filterMap_cons, h]

theorem clusterData_length (cs : List ℤ) (hs : List ℚ)
    (h : cs.length = hs.length) (c : ℤ) :
    (clusterData cs hs c).length = cs.countP (fun x => decide (x = c)) := by
  induction cs generalizing hs with
  | nil => simp [clusterData]
  | cons a t ih =>
    cases hs with
    | nil => simp at h
    | cons b u =>
      rw [clusterData_cons]
      have ht : t.length = u.length := by simpa using h
      rw [List.countP_cons]
      by_cases hac : a = c <;> simp [hac, ih u ht]

/-- Summing the indicator of `a = c` over `c ∈ 0 .. m-1`. -/
theorem indicator_sum (a : ℤ) (m : ℕ) :
    ((List.range m).map (fun c : ℕ => if a = (c : ℤ) then 1 else 0)).sum
      = if 0 ≤ a ∧ a < (m : ℤ) then 1 else 0 := by
  induction m with
  | zero =>
    simp only [List.range_zero, List.map_nil, List.sum_nil]
    split
    · omega
    · rfl
  | succ m ih =>
    rw [List.range_succ, List.map_append, List.sum_append, ih]
    simp only [List.map_cons, List.map_nil, List.sum_cons, List.sum_nil]
    by_cases h1 : 0 ≤ a ∧ a < (m : ℤ) <;> by_cases h2 : a = (m : ℤ) <;>
      by_cases h3 : 0 ≤ a ∧ a < ((m : ℕ) + 1 : ℤ) <;>
        simp [h1, h2, h3] <;> omega

/-- Summing the per-label counts over `c ∈ 0 .. m-1` counts the labels lying
in `[0, m)`. -/
theorem sum_count_range (cs : List ℤ) (m : ℕ) :
    ((List.range m).map (fun c : ℕ => cs.countP (fun x => decide (x = (c : ℤ))))).sum
      = cs.countP (fun x => decide (0 ≤ x ∧ x < (m : ℤ))) := by
  induction cs with
  | nil => simp
  | cons a t ih =>
    calc ((List.range m).map
            (fun c : ℕ => (a :: t).countP (fun x => decide (x = (c : ℤ))))).sum
        = ((List.range m).map
            (fun c : ℕ => t.countP (fun x => decide (x = (c : ℤ)))
              + (if a = (c : ℤ) then 1 else 0))).sum := by
          apply congrArg
          apply List.map_congr_left
          intro c _
          rw [List.countP_cons]
          by_cases hac : a = (c : ℤ) <;> simp [hac]
      _ = ((List.range m).map (fun c : ℕ => t.countP (fun x => decide (x = (c : ℤ))))).sum
            + ((List.range m).map (fun c : ℕ => if a = (c : ℤ) then 1 else 0)).sum := by
          rw [← List.sum_map_add]
      _ = t.countP (fun x => decide (0 ≤ x ∧ x < (m : ℤ)))
            + (if 0 ≤ a ∧ a < (m : ℤ) then 1 else 0) := by
          rw [indicator_sum, ih]
      _ = (a :: t).countP (fun x => decide (0 ≤ x ∧ x < (m : ℤ))) := by
          rw [List.countP_cons]
          by_cases h : 0 ≤ a ∧ a < (m : ℤ) <;> simp [h]

/-- The accumulated count of `fom`'s loop equals the number of items with a
nonnegative label (the `n` of the spec). -/
theorem fomCount_eq_specN (cs : List ℤ) (hs : List ℚ)
    (hlen : cs.length = hs.length) :
    fomCount cs hs = specN cs := by
  unfold fomCount specN
  have h1 : ∀ c ∈ List.range (numClusters cs).toNat,
      (clusterData cs hs (c : ℤ)).length
        = cs.countP (fun x => decide (x = (c : ℤ))) := by
    intro c _
    exact clusterData_length cs hs hlen (c : ℤ)
  rw [List.map_congr_left h1, sum_count_range]
  apply List.countP_congr
  intro x hx
  have hle : x ≤ maxLabel cs := le_maxLabel cs x hx
  by_cases h : 0 ≤ x
  · have hx2 : x < ((numClusters cs).toNat : ℤ) := by
      unfold numClusters at *
      omega
    simp [h, hx2]
    unfold numClusters
    omega
  · simp [h]

theorem specSSD_eq_fomSSD (cs : List ℤ) (hs : List ℚ) :
    specSSD cs hs = fomSSD cs hs := rfl

/-- Unfolding of `fomCore` in the successful unadjusted case. -/
theorem fomCore_false_eq (cs : List ℤ) (hs : List ℚ) (hne : cs ≠ [])
    (hn : fomCount cs hs ≠ 0) :
    fomCore cs hs false = .ok (fomSSD cs hs / (fomCount cs hs : ℚ), 1) := by
  simp [fomCore, hne, hn]

/-- Under the hypotheses of C1: the cluster count is positive. -/
theorem fomCount_ne_zero (cs : List ℤ) (hs : List ℚ) (hmax : 0 ≤ maxLabel cs)
    (hfull : ∀ c ∈ List.range (numClusters cs).toNat,
      clusterData cs hs (c : ℤ) ≠ []) :
    fomCount cs hs ≠ 0 := by
  have h0mem : 0 ∈ List.range (numClusters cs).toNat := by
    apply List.mem_range.mpr
    unfold numClusters
    omega
  unfold fomCount
  intro hsum
  have hmem : (clusterData cs hs ((0 : ℕ) : ℤ)).length ∈
      (List.range (numClusters cs).toNat).map
        (fun c : ℕ => (clusterData cs hs (c : ℤ)).length) :=
    List.mem_map_of_mem _ h0mem
  have hz := List.sum_eq_zero_iff.mp hsum _ hmem
  exact hfull 0 h0mem (List.length_eq_zero.mp hz)

/-- **C1.**  For every pair of equal-length arrays in which every cluster ID
`0 .. max(clusters)` has at least one member (and a cluster exists at all),
`fom(clusters, hidden_data, adjust=false)` returns `sqrt(S/N)` where `S` is
the sum over cluster IDs of the squared deviations of the hidden values with
that label from their mean and `N` is the number of items with label `≥ 0`;
in particular `fom([0,0,1,1], [1,3,5,5], false) = sqrt(2/4)`. -/
theorem fom_unadjusted_eq_sqrt_ssd (cs : List ℤ) (hs : List ℚ)
    (hlen : cs.length = hs.length) (hmax : 0 ≤ maxLabel cs)
    (hfull : ∀ c ∈ List.range (numClusters cs).toNat,
      clusterData cs hs (c : ℤ) ≠ []) :
    fom cs hs false = .ok (Real.sqrt ((specSSD cs hs / (specN cs : ℚ) : ℚ) : ℝ))
      ∧ fom [0, 0, 1, 1] [1, 3, 5, 5] false
          = .ok (Real.sqrt (((2 : ℚ) / 4 : ℚ) : ℝ)) := by
  constructor
  · have h0mem : 0 ∈ List.range (numClusters cs).toNat := by
      apply List.mem_range.mpr
      unfold numClusters
      omega
    have hne : cs ≠ [] := by
      intro h
      exact hfull 0 h0mem (by simp [h, clusterData])
    have hn := fomCount_ne_zero cs hs hmax hfull
    unfold fom
    rw [fomCore_false_eq cs hs hne hn, fomCount_eq_specN cs hs hlen,
      specSSD_eq_fomSSD]
    simp [Except.map]
  · unfold fom
    rw [show fomCore [0, 0, 1, 1] [1, 3, 5, 5] false = .ok ((2 : ℚ) / 4, 1) from by
      with_unfolding_all rfl]
    simp [Except.map]

/-- Witness for C1 at the spec's concrete scenario. -/
theorem fom_unadjusted_eq_sqrt_ssd_witness :
    fom [0, 0, 1, 1] [1, 3, 5, 5] false = .ok (Real.sqrt (((2 : ℚ) / 4 : ℚ) : ℝ)) :=
  (fom_unadjusted_eq_sqrt_ssd [0, 0, 1, 1] [1, 3, 5, 5]
    (by decide) (by decide) (by decide)).2

/-- When every cluster ID `0 .. max` has a member, the clustered-item count
is at least the cluster count. -/
theorem numClusters_toNat_le_fomCount (cs : List ℤ) (hs : List ℚ)
    (hfull : ∀ c ∈ List.range (numClusters cs).toNat,
      clusterData cs hs (c : ℤ) ≠ []) :
    (numClusters cs).toNat ≤ fomCount cs hs := by
  unfold fomCount
  calc (numClusters cs).toNat
      = (List.range (numClusters cs).toNat).length := (List.length_range _).symm
    _ = ((List.range (numClusters cs).toNat).map
          (fun c : ℕ => (clusterData cs hs (c : ℤ)).length)).length :=
        (List.length_map _ _).symm
    _ ≤ ((List.range (numClusters cs).toNat).map
          (fun c : ℕ => (clusterData cs hs (c : ℤ)).length)).sum := by
        apply List.length_le_sum_of_one_le
        intro x hx
        rcases List.mem_map.mp hx with ⟨c, hc, rfl⟩
        have hne := hfull c hc
        rcases Nat.eq_zero_or_pos (clusterData cs hs (c : ℤ)).length with h0 | h1
        · exact absurd (List.length_eq_zero.mp h0) hne
        · exact h1

theorem fomCore_true_cee (cs : List ℤ) (hs : List ℚ) (hne : cs ≠ [])
    (hn : fomCount cs hs ≠ 0)
    (heq : (fomCount cs hs : ℤ) = numClusters cs) :
    fomCore cs hs true = .error .clusterEvaluationError := by
  simp [fomCore, hne, hn, heq]

theorem fomCore_true_eq (cs : List ℤ) (hs : List ℚ) (hne : cs ≠ [])
    (hn : fomCount cs hs ≠ 0)
    (hne2 : ¬ ((fomCount cs hs : ℤ) = numClusters cs))
    (hpos : ¬ (((fomCount cs hs : ℚ) - ((numClusters cs : ℤ) : ℚ))
        / (fomCount cs hs : ℚ) < 0)) :
    fomCore cs hs true = .ok (fomSSD cs hs / (fomCount cs hs : ℚ),
      ((fomCount cs hs : ℚ) - ((numClusters cs : ℤ) : ℚ)) / (fomCount cs hs : ℚ)) := by
  simp only [fomCore, if_neg hne, if_neg hn, if_true]
  simp [hne2, hpos]

/-- **C2 (counterexample).**  On `clusters = [2]`, `hidden = [1.0]` (one
clustered item, cluster count `k = 3` because of the empty clusters `0` and
`1`), adjusted `fom` raises a math-domain `ValueError` from
`sqrt((1-3)/1)`: it neither raises `ClusterEvaluationError` (so the claimed
"iff" direction survives) nor returns any value, contradicting the claim
that whenever the domain error is not raised the adjusted result is
returned. -/
theorem fom_adjusted_claim_counterexample :
    fom [2] [1] true = .error .mathDomainError
      ∧ EvalErr.mathDomainError ≠ EvalErr.clusterEvaluationError := by
  constructor
  · unfold fom
    rw [show fomCore [2] [1] true = .error .mathDomainError from by
      with_unfolding_all rfl]
    rfl
  · decide

/-- **C2 (amended).**  For every input with at least one clustered item *in
which every cluster ID `0 .. max(clusters)` has at least one member*,
adjusted `fom` raises `ClusterEvaluationError` iff the number `N` of
clustered items equals the cluster count `k`; when it does not raise, it
returns the unadjusted result divided by `sqrt((N-k)/N)`, whose argument is
strictly positive (so the adjustment is a genuine finite value, never
NaN/Inf).  (The original claim, without the nonempty-cluster hypothesis, is
refuted by `fom_adjusted_claim_counterexample`: empty clusters can make
`N < k` and adjusted `fom` then dies with a math-domain error.) -/
theorem fom_adjusted_domain_error_iff (cs : List ℤ) (hs : List ℚ)
    (hlen : cs.length = hs.length) (hmax : 0 ≤ maxLabel cs)
    (hfull : ∀ c ∈ List.range (numClusters cs).toNat,
      clusterData cs hs (c : ℤ) ≠ []) :
    (fom cs hs true = .error .clusterEvaluationError
        ↔ (specN cs : ℤ) = numClusters cs)
    ∧ ((specN cs : ℤ) ≠ numClusters cs →
        0 < ((specN cs : ℚ) - ((numClusters cs : ℤ) : ℚ)) / (specN cs : ℚ)
        ∧ fom cs hs true
            = .ok (Real.sqrt ((specSSD cs hs / (specN cs : ℚ) : ℚ) : ℝ)
              / Real.sqrt (((((specN cs : ℚ) - ((numClusters cs : ℤ) : ℚ))
                  / (specN cs : ℚ)) : ℚ) : ℝ))) := by
  have h0mem : 0 ∈ List.range (numClusters cs).toNat := by
    apply List.mem_range.mpr
    unfold numClusters
    omega
  have hne : cs ≠ [] := by
    intro h
    exact hfull 0 h0mem (by simp [h, clusterData])
  have hn := fomCount_ne_zero cs hs hmax hfull
  have hcnt := fomCount_eq_specN cs hs hlen
  have hlek := numClusters_toNat_le_fomCount cs hs hfull
  by_cases heq : (specN cs : ℤ) = numClusters cs
  · constructor
    · rw [show fom cs hs true = .error .clusterEvaluationError from by
        unfold fom
        rw [fomCore_true_cee cs hs hne hn (by rw [hcnt]; exact heq)]
        rfl]
      simp [heq]
    · intro hne2
      exact absurd heq hne2
  · have hlt : numClusters cs < (specN cs : ℤ) := by
      have hk0 : 0 ≤ numClusters cs := by
        unfold numClusters
        omega
      omega
    have hposQ : 0 < ((specN cs : ℚ) - ((numClusters cs : ℤ) : ℚ)) / (specN cs : ℚ) := by
      apply div_pos
      · have : ((numClusters cs : ℤ) : ℚ) < ((specN cs : ℕ) : ℚ) := by
          exact_mod_cast hlt
        linarith
      · have hn' : 0 < specN cs := by omega
        exact_mod_cast hn'
    have hok : fom cs hs true
        = .ok (Real.sqrt ((specSSD cs hs / (specN cs : ℚ) : ℚ) : ℝ)
          / Real.sqrt (((((specN cs : ℚ) - ((numClusters cs : ℤ) : ℚ))
              / (specN cs : ℚ)) : ℚ) : ℝ)) := by
      unfold fom
      rw [fomCore_true_eq cs hs hne hn (by rw [hcnt]; exact heq)
        (by rw [hcnt]; exact not_lt_of_gt hposQ)]
      rw [specSSD_eq_fomSSD, hcnt]
      rfl
    refine ⟨?_, fun _ => ⟨hposQ, hok⟩⟩
    rw [hok]
    simp [heq]

/-- Witness for C2 (amended) at `clusters = [0,0,1]`, `hidden = [1,3,5]`
(`N = 3`, `k = 2`). -/
theorem fom_adjusted_domain_error_iff_witness :
    (specN [0, 0, 1] : ℤ) ≠ numClusters [0, 0, 1]
    ∧ (0 < ((specN [0, 0, 1] : ℚ) - ((numClusters [0, 0, 1] : ℤ) : ℚ))
          / (specN [0, 0, 1] : ℚ)
        ∧ fom [0, 0, 1] [1, 3, 5] true
            = .ok (Real.sqrt ((specSSD [0, 0, 1] [1, 3, 5] / (specN [0, 0, 1] : ℚ) : ℚ) : ℝ)
              / Real.sqrt (((((specN [0, 0, 1] : ℚ) - ((numClusters [0, 0, 1] : ℤ) : ℚ))
                  / (specN [0, 0, 1] : ℚ)) : ℚ) : ℝ))) :=
  ⟨by decide,
    (fom_adjusted_domain_error_iff [0, 0, 1] [1, 3, 5]
      (by decide) (by decide) (by decide)).2 (by decide)⟩

/-- **C10.**  For every nonempty label array in which every label is negative
(no item clustered), `fom` fails with the division-by-zero error regardless
of the `adjust` flag: the clustered-item count is `0` in `sqrt(ssd/0)`.  It
neither returns a float nor raises `ClusterEvaluationError`. -/
theorem fom_all_unclustered_zero_division (cs : List ℤ) (hs : List ℚ)
    (adjust : Bool) (hne : cs ≠ []) (hneg : ∀ x ∈ cs, x < 0) :
    fom cs hs adjust = .error .zeroDivisionError := by
  have hmaxneg : maxLabel cs < 0 := hneg _ (maxLabel_mem cs hne)
  have hk : (numClusters cs).toNat = 0 := by
    unfold numClusters
    omega
  have hcount : fomCount cs hs = 0 := by
    unfold fomCount
    rw [hk]
    rfl
  unfold fom
  rw [show fomCore cs hs adjust = .error .zeroDivisionError from by
    simp [fomCore, hne, hcount]]
  rfl

/-- Witness for C10. -/
theorem fom_all_unclustered_zero_division_witness :
    fom [-1, -2] [1, 2] true = .error .zeroDivisionError :=
  fom_all_unclustered_zero_division [-1, -2] [1, 2] true (by decide) (by decide)

/-! ### `aggregate_fom` (`evaluate.py` lines 70–121) -/

/-- `data.compress([col != e for col in range(data.shape[1])], axis=1)`:
every row with its `e`-th entry removed. -/
def removeColumn (data : List (List ℚ)) (e : ℕ) : List (List ℚ) :=
  data.map (fun row =>
    row.enum.filterMap (fun p => if p.1 = e then none else some p.2))

/-- `data.take(e, axis=1)`: column `e` of the matrix. -/
def column (data : List (List ℚ)) (e : ℕ) : List ℚ :=
  data.map (fun row => row.getD e 0)

/-- `data.shape[1]`: the (uniform) number of columns. -/
def numCols (data : List (List ℚ)) : ℕ := (data.headD []).length

/-- `aggregate_fom(data, fn, fn_args, fn_kwargs, adjust)`: for each column
`e`, cluster the data with column `e` removed using the injected clustering
capability `fn` (its extra positional/keyword arguments are already folded
into the closure), evaluate `fom` against column `e`, and accumulate the
sum; the first exception aborts the loop and propagates. -/
noncomputable def aggregate_fom (data : List (List ℚ))
    (fn : List (List ℚ) → List ℤ) (adjust : Bool) : Except EvalErr ℝ :=
  (List.range (numCols data)).foldlM
    (fun acc e =>
      (fom (fn (removeColumn data e)) (column data e) adjust).map
        (fun r => acc + r))
    (0 : ℝ)

/-- Removing index `e` from an indexed row: one entry disappears when `e` is
in range. -/
theorem enumFrom_removal_length (l : List ℚ) (s e : ℕ) :
    ((List.enumFrom s l).filterMap
        (fun p => if p.1 = e then none else some p.2)).length
      = if s ≤ e ∧ e < s + l.length then l.length - 1 else l.length := by
  induction l generalizing s with
  | nil =>
    simp only [List.enumFrom_nil, List.filterMap_nil, List.length_nil]
    rw [if_neg (by omega)]
  | cons a t ih =>
    have hstep : (List.enumFrom s (a :: t)).filterMap
        (fun p => if p.1 = e then none else some p.2)
        = (if s = e then [] else [a])
          ++ (List.enumFrom (s + 1) t).filterMap
              (fun p => if p.1 = e then none else some p.2) := by
      rw [List.enumFrom_cons, List.filterMap_cons]
      by_cases hse : s = e <;> simp [hse]
    rw [hstep, List.length_append, ih (s + 1)]
    by_cases hse : s = e <;>
      by_cases hin : s + 1 ≤ e ∧ e < s + 1 + t.length <;>
        simp [hse, hin] <;> split_ifs <;> omega

theorem removeColumn_row_length (row : List ℚ) (e : ℕ) (he : e < row.length) :
    (row.enum.filterMap (fun p => if p.1 = e then none else some p.2)).length
      = row.length - 1 := by
  have h := enumFrom_removal_length row 0 e
  rw [if_pos ⟨Nat.zero_le e, by omega⟩] at h
  exact h

/-- On an all-`ok` index list, the accumulating fold returns the sum. -/
theorem foldlM_map_ok (g : ℕ → Except EvalErr ℝ) (v : ℕ → ℝ) (l : List ℕ)
    (acc : ℝ) (h : ∀ e ∈ l, g e = .ok (v e)) :
    l.foldlM (fun acc e => (g e).map (fun r => acc + r)) acc
      = .ok (acc + (l.map v).sum) := by
  induction l generalizing acc with
  | nil =>
    simp only [List.foldlM_nil, List.map_nil, List.sum_nil, add_zero]
    rfl
  | cons a t ih =>
    rw [List.foldlM_cons, h a (List.mem_cons_self a t)]
    refine Eq.trans (ih (acc + v a) (fun e he => h e (List.mem_cons_of_mem a he))) ?_
    simp [add_assoc]

/-- The first error of the accumulating fold propagates unchanged. -/
theorem foldlM_map_err (g : ℕ → Except EvalErr ℝ) (l1 l2 : List ℕ) (e : ℕ)
    (acc : ℝ) (err : EvalErr) (h1 : ∀ x ∈ l1, ∃ r, g x = .ok r)
    (he : g e = .error err) :
    (l1 ++ e :: l2).foldlM (fun acc x => (g x).map (fun r => acc + r)) acc
      = .error err := by
  induction l1 generalizing acc with
  | nil =>
    rw [List.nil_append, List.foldlM_cons, he]
    rfl
  | cons a t ih =>
    rcases h1 a (List.mem_cons_self a t) with ⟨r, hr⟩
    rw [List.cons_append, List.foldlM_cons, hr]
    exact ih (acc + r) (fun x hx => h1 x (List.mem_cons_of_mem a hx))

theorem range_split (m e : ℕ) (he : e < m) :
    List.range m = List.range e ++ e :: List.range' (e + 1) (m - (e + 1)) := by
  rw [List.range_eq_range', List.range_eq_range']
  have h1 := List.range'_append 0 e (m - e) 1
  rw [show 0 + 1 * e = e from by omega, show m - e + e = m from by omega] at h1
  have h2 : List.range' e (m - e) = e :: List.range' (e + 1) (m - (e + 1)) := by
    rw [show m - e = (m - (e + 1)) + 1 from by omega, List.range'_succ]
  rw [← h1, h2]

/-- **C3.**  For every `n×m` matrix and clustering function `fn`:
(i) each of the `m` reduced matrices handed to `fn` is the input with exactly
column `e` removed — an `n×(m-1)` matrix; (ii) when every per-column `fom`
evaluation (on the partition returned by `fn` for the reduced matrix, with
column `e` as hidden data and the given adjust flag) succeeds,
`aggregate_fom` returns the sum of the `m` `fom` values; (iii) if the `fom`
evaluation of some column fails while all earlier columns succeed, the same
error propagates unchanged and no partial aggregate is produced. -/
theorem aggregate_fom_spec (data : List (List ℚ))
    (fn : List (List ℚ) → List ℤ) (adjust : Bool) (v : ℕ → ℝ)
    (err : EvalErr) (efail : ℕ)
    (hrows : ∀ row ∈ data, row.length = numCols data) :
    (∀ e < numCols data, (removeColumn data e).length = data.length
        ∧ ∀ row ∈ removeColumn data e, row.length = numCols data - 1)
    ∧ ((∀ e < numCols data,
          fom (fn (removeColumn data e)) (column data e) adjust = .ok (v e)) →
        aggregate_fom data fn adjust
          = .ok (((List.range (numCols data)).map v).sum))
    ∧ (efail < numCols data →
        (∀ e < efail,
          ∃ r, fom (fn (removeColumn data e)) (column data e) adjust = .ok r) →
        fom (fn (removeColumn data efail)) (column data efail) adjust
          = .error err →
        aggregate_fom data fn adjust = .error err) := by
  refine ⟨?_, ?_, ?_⟩
  · intro e he
    constructor
    · exact List.length_map data _
    · intro row' hrow'
      rcases List.mem_map.mp hrow' with ⟨row, hrow, rfl⟩
      rw [removeColumn_row_length row e (by rw [hrows row hrow]; exact he),
        hrows row hrow]
  · intro h
    have := foldlM_map_ok
      (fun e => fom (fn (removeColumn data e)) (column data e) adjust) v
      (List.range (numCols data)) 0
      (fun e he => h e (List.mem_range.mp he))
    rw [aggregate_fom, this, zero_add]
  · intro hm hok herr
    rw [aggregate_fom, range_split (numCols data) efail hm]
    exact foldlM_map_err
      (fun e => fom (fn (removeColumn data e)) (column data e) adjust)
      (List.range efail) (List.range' (efail + 1) (numCols data - (efail + 1)))
      efail 0 err (fun x hx => hok x (List.mem_range.mp hx)) herr

/-- Witness for C3: a `2×2` matrix with a constant clustering stub; both
per-column `fom` values are `sqrt(1)/sqrt(1)` and the aggregate is their
sum. -/
theorem aggregate_fom_spec_witness :
    aggregate_fom [[1, 2], [3, 4]] (fun _ => [0, 0]) false
      = .ok (((List.range (numCols [[1, 2], [3, 4]])).map
          (fun _ : ℕ => Real.sqrt ((1 : ℚ) : ℝ) / Real.sqrt ((1 : ℚ) : ℝ))).sum) := by
  apply (aggregate_fom_spec [[1, 2], [3, 4]] (fun _ => [0, 0]) false
    (fun _ : ℕ => Real.sqrt ((1 : ℚ) : ℝ) / Real.sqrt ((1 : ℚ) : ℝ))
    .valueError 0 (by decide)).2.1
  intro e he
  have h2 : numCols [[1, 2], [3, 4]] = 2 := rfl
  rw [h2] at he
  interval_cases e <;>
    · unfold fom
      rw [show fomCore [0, 0] (column [[1, 2], [3, 4]] _) false
          = .ok ((1 : ℚ), (1 : ℚ)) from by with_unfolding_all rfl]
      rfl

/-! ### `rand_index` (`evaluate.py` lines 123–156) -/

/-- The index pairs visited by the double loop
`for i in range(n - 1): for j in range(i + 1, n)`. -/
def pairList (n : ℕ) : List (ℕ × ℕ) :=
  (List.range (n - 1)).flatMap
    (fun i => (List.range' (i + 1) (n - (i + 1))).map (fun j => (i, j)))

/-- The agreement test of the inner loop: both partitions place `i, j` in the
same cluster, or both place them in different clusters — labels compared by
literal equality (an unclustered label `< 0` is just another value). -/
def agreePair (X Y : List ℤ) (p : ℕ × ℕ) : Bool :=
  decide ((X.getD p.1 0 = X.getD p.2 0 ∧ Y.getD p.1 0 = Y.getD p.2 0)
    ∨ (¬ X.getD p.1 0 = X.getD p.2 0 ∧ ¬ Y.getD p.1 0 = Y.getD p.2 0))

/-- `rand_index(X, Y)`: agreements over total pairs.  With `n < 2` the loop
body never runs and `agreements / total_pairs = 0.0 / 0.0` raises
`ZeroDivisionError` (numba error model `python`). -/
def rand_index (X Y : List ℤ) : Except EvalErr ℚ :=
  let agreements : ℕ := (pairList X.length).countP (agreePair X Y)
  let total : ℕ := (pairList X.length).length
  if total = 0 then .error .zeroDivisionError
  else .ok ((agreements : ℚ) / (total : ℚ))

/-- The spec's count of agreeing unordered pairs `(i, j)`, `i ≠ j`,
canonically represented as the ordered pairs `i < j < n`. -/
def specAgreements (X Y : List ℤ) : ℕ :=
  ((Finset.range X.length ×ˢ Finset.range X.length).filter
    (fun p => p.1 < p.2
      ∧ ((X.getD p.1 0 = X.getD p.2 0) ↔ (Y.getD p.1 0 = Y.getD p.2 0)))).card

theorem pairList_mem (n : ℕ) (p : ℕ × ℕ) :
    p ∈ pairList n ↔ p.1 < p.2 ∧ p.2 < n := by
  unfold pairList
  rw [List.mem_flatMap]
  constructor
  · rintro ⟨i, hi, hp⟩
    rcases List.mem_map.mp hp with ⟨j, hj, rfl⟩
    have hi' := List.mem_range.mp hi
    have hj' := List.mem_range'_1.mp hj
    exact ⟨by omega, by omega⟩
  · rintro ⟨h1, h2⟩
    refine ⟨p.1, List.mem_range.mpr (by omega), ?_⟩
    rw [List.mem_map]
    exact ⟨p.2, List.mem_range'_1.mpr ⟨by omega, by omega⟩, Prod.mk.eta⟩

theorem pairList_nodup (n : ℕ) : (pairList n).Nodup := by
  unfold pairList
  rw [List.nodup_flatMap]
  constructor
  · intro i _
    apply List.Nodup.map
    · intro a b hab
      simpa using hab
    · apply List.nodup_range'
      norm_num
  · refine List.Pairwise.imp ?_ (List.nodup_range (n - 1))
    intro a b hab x hxa hxb
    rcases List.mem_map.mp hxa with ⟨j, _, rfl⟩
    rcases List.mem_map.mp hxb with ⟨j2, _, heq⟩
    exact hab (congrArg Prod.fst heq).symm

theorem pairList_toFinset (n : ℕ) :
    (pairList n).toFinset
      = (Finset.range n ×ˢ Finset.range n).filter (fun p => p.1 < p.2) := by
  apply Finset.ext
  intro p
  rw [List.mem_toFinset, pairList_mem, Finset.mem_filter, Finset.mem_product,
    Finset.mem_range, Finset.mem_range]
  constructor
  · rintro ⟨h1, h2⟩
    exact ⟨⟨by omega, h2⟩, h1⟩
  · rintro ⟨⟨_, h2⟩, h1⟩
    exact ⟨h1, h2⟩

theorem pairList_countP_eq (X Y : List ℤ) (n : ℕ) :
    (pairList n).countP (agreePair X Y)
      = ((Finset.range n ×ˢ Finset.range n).filter
          (fun p => p.1 < p.2
            ∧ ((X.getD p.1 0 = X.getD p.2 0) ↔ (Y.getD p.1 0 = Y.getD p.2 0)))).card := by
  rw [List.countP_eq_length_filter,
    ← List.toFinset_card_of_nodup ((pairList_nodup n).filter _),
    List.toFinset_filter, pairList_toFinset, Finset.filter_filter]
  congr 1
  apply Finset.filter_congr
  intro p _
  unfold agreePair
  constructor
  · rintro ⟨h1, h2⟩
    rw [decide_eq_true_iff] at h2
    exact ⟨h1, by tauto⟩
  · rintro ⟨h1, h2⟩
    refine ⟨h1, ?_⟩
    rw [decide_eq_true_iff]
    by_cases hx : X.getD p.1 0 = X.getD p.2 0
    · exact Or.inl ⟨hx, h2.mp hx⟩
    · exact Or.inr ⟨hx, fun hy => hx (h2.mpr hy)⟩

theorem sum_map_one (m : ℕ) : ((List.range m).map (fun _ : ℕ => 1)).sum = m := by
  induction m with
  | zero => rfl
  | succ m ih =>
    rw [List.range_succ, List.map_append, List.sum_append, ih]
    simp

theorem twice_sum_sub (m : ℕ) :
    2 * ((List.range m).map (fun i => m - i)).sum = m * (m + 1) := by
  induction m with
  | zero => rfl
  | succ m ih =>
    rw [List.range_succ, List.map_append, List.sum_append]
    have hstep : (List.range m).map (fun i => m + 1 - i)
        = (List.range m).map (fun i => (m - i) + 1) := by
      apply List.map_congr_left
      intro i hi
      have := List.mem_range.mp hi
      omega
    rw [hstep, List.sum_map_add, sum_map_one]
    have ih2 : 2 * ((List.range m).map (HSub.hSub m)).sum = m * (m + 1) := ih
    simp only [List.map_cons, List.map_nil, List.sum_cons, List.sum_nil,
      Nat.add_sub_cancel_left, Nat.add_zero]
    nlinarith [ih2]

theorem pairList_length (n : ℕ) : 2 * (pairList n).length = n * (n - 1) := by
  unfold pairList
  rw [List.length_flatMap]
  have hstep : (List.range (n - 1)).map
      (List.length ∘ fun i => (List.range' (i + 1) (n - (i + 1))).map (fun j => (i, j)))
      = (List.range (n - 1)).map (fun i => (n - 1) - i) := by
    apply List.map_congr_left
    intro i _
    show ((List.range' (i + 1) (n - (i + 1))).map (fun j => (i, j))).length = n - 1 - i
    rw [List.length_map, List.length_range']
    omega
  rw [hstep]
  have := twice_sum_sub (n - 1)
  rcases Nat.eq_zero_or_pos n with h0 | h1
  · subst h0
    rfl
  · rw [this, Nat.sub_add_cancel h1, Nat.mul_comm]

/-- **C7.**  For equal-length label arrays with `n ≥ 2` items, `rand_index`
returns the number of unordered pairs on which the two partitions agree
(same cluster in both, or different clusters in both, labels compared by
literal equality) divided by `n(n-1)/2`.  In particular two items that are
both unclustered with equal labels count as "same cluster": with
`X = [-1,-1]` the pair agrees when `Y` puts the items together (`[5,5]`,
index 1) and disagrees when `Y` separates them (`[0,1]`, index 0). -/
theorem rand_index_spec (X Y : List ℤ) (hlen : X.length = Y.length)
    (h2 : 2 ≤ X.length) :
    rand_index X Y = .ok ((specAgreements X Y : ℚ)
        / ((X.length : ℚ) * ((X.length : ℚ) - 1) / 2))
    ∧ rand_index [-1, -1] [5, 5] = .ok 1
    ∧ rand_index [-1, -1] [0, 1] = .ok 0 := by
  refine ⟨?_, by with_unfolding_all rfl, by with_unfolding_all rfl⟩
  have hA := pairList_length X.length
  have htot : (pairList X.length).length ≠ 0 := by
    have h1 : 2 * 1 ≤ X.length * (X.length - 1) :=
      Nat.mul_le_mul h2 (by omega)
    omega
  have hq : (2 : ℚ) * ((pairList X.length).length : ℚ)
      = (X.length : ℚ) * ((X.length : ℚ) - 1) := by
    have hc := congrArg (fun k : ℕ => (k : ℚ)) hA
    push_cast [Nat.cast_sub (show 1 ≤ X.length by omega)] at hc
    linarith
  have hlenQ : ((pairList X.length).length : ℚ)
      = (X.length : ℚ) * ((X.length : ℚ) - 1) / 2 := by
    rw [eq_div_iff (two_ne_zero)]
    linarith
  unfold rand_index
  simp only [if_neg htot]
  rw [hlenQ, pairList_countP_eq X Y X.length]
  rfl

/-- Witness for C7 at the spec's template scenario `X = [0,0,1,1]`,
`Y = [0,1,0,1]`. -/
theorem rand_index_spec_witness :
    rand_index [0, 0, 1, 1] [0, 1, 0, 1]
      = .ok ((specAgreements [0, 0, 1, 1] [0, 1, 0, 1] : ℚ)
          / ((([0, 0, 1, 1] : List ℤ).length : ℚ)
              * ((([0, 0, 1, 1] : List ℤ).length : ℚ) - 1) / 2)) :=
  (rand_index_spec [0, 0, 1, 1] [0, 1, 0, 1] (by decide) (by decide)).1

/-! ### `silhouette_widths` / `compute_widths` (`evaluate.py` lines 158–251)

The kernel `compute_widths` is compiled with `@jit(nopython=True)`, whose
default error model is `python`: a float division by zero raises
`ZeroDivisionError` instead of producing IEEE `inf`/`nan` (numba only
follows IEEE for operations whose divisor is nonzero, such as
`inf/inf = nan`). -/

/-- A numba float result: a finite value, or the IEEE `nan` produced by
`(inf - a) / max(a, inf) = inf/inf` when the minimum `b` keeps its initial
value `np.inf`. -/
inductive FloatVal
  | nan
  | val (q : ℚ)
  deriving DecidableEq, Repr

/-- `dmatrix[i, j]`. -/
def distAt (dmatrix : List (List ℚ)) (i j : ℕ) : ℚ :=
  (dmatrix.getD i []).getD j 0

/-- The inner `j`-loop of `compute_widths` for item `i`: `dsum[c]`, the total
distance from `i` to the clustered items `j ≠ i` with `clusters[j] = c`. -/
def dsum (dmatrix : List (List ℚ)) (clusters : List ℤ) (i : ℕ) (c : ℕ) : ℚ :=
  (((List.range dmatrix.length).filter
      (fun j => decide (j ≠ i ∧ clusters.getD j (-1) = (c : ℤ)))).map
    (fun j => distAt dmatrix i j)).sum

/-- `dcount[c]`: the number of clustered items `j ≠ i` with
`clusters[j] = c`. -/
def dcount (dmatrix : List (List ℚ)) (clusters : List ℤ) (i : ℕ) (c : ℕ) : ℕ :=
  ((List.range dmatrix.length).filter
    (fun j => decide (j ≠ i ∧ clusters.getD j (-1) = (c : ℤ)))).length

/-- The body of `compute_widths` for one item `i` (`evaluate.py` lines
202–246): unclustered items (`clusters[i] < 0`) and sole cluster members
(`dcount[clusters[i]] == 0`) get width `0`; otherwise `a` is the mean
distance to the rest of `i`'s own cluster, and the loop over the other
clusters `c < k` computes `d = dsum[c]/dcount[c]` unconditionally, so an
empty other cluster raises `ZeroDivisionError` (numba error model
`python`); when no other cluster index exists at all (`k = 1`), `b` keeps
its initial `np.inf` and the final `(b - a)/max(a, b) = inf/inf` is the
IEEE `nan`. -/
def widthAt (dmatrix : List (List ℚ)) (clusters : List ℤ) (k : ℕ) (i : ℕ) :
    Except EvalErr FloatVal :=
  let ci : ℤ := clusters.getD i (-1)
  if ci < 0 then .ok (.val 0)
  else if dcount dmatrix clusters i ci.toNat = 0 then .ok (.val 0)
  else if (List.range k).any
      (fun c => decide (c ≠ ci.toNat) && decide (dcount dmatrix clusters i c = 0)) then
    .error .zeroDivisionError
  else
    let a : ℚ :=
      dsum dmatrix clusters i ci.toNat / (dcount dmatrix clusters i ci.toNat : ℚ)
    match (((List.range k).filter (fun c => decide (c ≠ ci.toNat))).map
        (fun c => dsum dmatrix clusters i c / (dcount dmatrix clusters i c : ℚ))).min? with
    | none => .ok .nan
    | some b =>
        if max a b = 0 then .error .zeroDivisionError
        else .ok (.val ((b - a) / max a b))

/-- The jitted kernel `compute_widths(dmatrix, clusters, k, widths, dsum,
dcount)`: the widths of the items `0 .. len(dmatrix) - 1` in order, or the
first exception raised (the function then returns nothing at all). -/
def compute_widths (dmatrix : List (List ℚ)) (clusters : List ℤ) (k : ℕ) :
    Except EvalErr (List FloatVal) :=
  (List.range dmatrix.length).mapM (widthAt dmatrix clusters k)

/-- `silhouette_widths(clusters, data, metric, dmatrix)` with the distance
matrix supplied directly (the `pdist` derivation is an external
collaborator).  `clusters.max()` on an empty array raises `ValueError`, and
so does `np.empty(k)` when `k = int(clusters.max() + 1)` is negative. -/
def silhouette_widths (clusters : List ℤ) (dmatrix : List (List ℚ)) :
    Except EvalErr (List FloatVal) :=
  if clusters = [] then .error .valueError
  else if numClusters clusters < 0 then .error .valueError
  else compute_widths dmatrix clusters (numClusters clusters).toNat

/-- **C4 (failing input).**  `clusters = [0, 0, 2]` with a symmetric zero-
diagonal `3×3` distance matrix: cluster `1` is empty, item `0` is clustered
and not a sole member, yet `silhouette_widths` raises `ZeroDivisionError`
(the loop over the other clusters computes `d = dsum[1]/dcount[1] = 0.0/0.0`
under numba's default error model `python`) instead of skipping the empty
cluster in the minimization; the per-item width `(b - a)/max(a, b)` is never
produced. -/
theorem silhouette_empty_cluster_crash :
    silhouette_widths [0, 0, 2] [[0, 1, 1], [1, 0, 1], [1, 1, 0]]
      = .error .zeroDivisionError := by
  with_unfolding_all rfl

/-- **C5 (failing input).**  `clusters = [-1, 0, 0, 2]` with a symmetric
zero-diagonal `4×4` distance matrix: item `0` is unclustered, but
`silhouette_widths` raises `ZeroDivisionError` while processing item `1`
(empty cluster `1`), so no item — in particular not the unclustered item
`0` — receives its sentinel width `0`; the claimed "defined sentinel
results, not errors" fails on this input. -/
theorem silhouette_unclustered_sentinel_crash :
    silhouette_widths [-1, 0, 0, 2]
        [[0, 1, 1, 1], [1, 0, 1, 1], [1, 1, 0, 1], [1, 1, 1, 0]]
      = .error .zeroDivisionError := by
  with_unfolding_all rfl

/-- **C6 (failing input).**  A single cluster holding both of `n = 2` items:
no other cluster exists, `b` keeps its initial `np.inf`, and every width is
`(inf - a)/max(a, inf) = inf/inf = nan` — not the claimed `0`. -/
theorem silhouette_single_cluster_nan :
    silhouette_widths [0, 0] [[0, 1], [1, 0]] = .ok [.nan, .nan]
      ∧ FloatVal.nan ≠ FloatVal.val 0 := by
  constructor
  · with_unfolding_all rfl
  · decide

/-! ### C8: an empty cluster ID contributes nothing to `fom`'s accumulation -/

/-- The same partition with the (empty) cluster ID `c₀` removed: every label
above `c₀` shifts down by one, all other labels (including the unclustered
negatives) are unchanged. -/
def removeLabel (c₀ : ℤ) (clusters : List ℤ) : List ℤ :=
  clusters.map (fun x => if c₀ < x then x - 1 else x)

theorem foldl_max_map_mono (f : ℤ → ℤ) (hf : ∀ x y : ℤ, x ≤ y → f x ≤ f y)
    (l : List ℤ) (init : ℤ) :
    (l.map f).foldl max (f init) = f (l.foldl max init) := by
  induction l generalizing init with
  | nil => rfl
  | cons a t ih =>
    rw [List.map_cons, List.foldl_cons, List.foldl_cons]
    have hmax : max (f init) (f a) = f (max init a) := by
      rcases le_total init a with h | h
      · rw [max_eq_right (hf _ _ h), max_eq_right h]
      · rw [max_eq_left (hf _ _ h), max_eq_left h]
    rw [hmax]
    exact ih (max init a)

theorem maxLabel_map_mono (f : ℤ → ℤ) (hf : ∀ x y : ℤ, x ≤ y → f x ≤ f y)
    (cs : List ℤ) (hne : cs ≠ []) :
    maxLabel (cs.map f) = f (maxLabel cs) := by
  cases cs with
  | nil => exact absurd rfl hne
  | cons a t =>
    show (f a :: t.map f).foldl max (f a) = f ((a :: t).foldl max a)
    rw [List.foldl_cons, List.foldl_cons, max_self, max_self]
    exact foldl_max_map_mono f hf t a

theorem maxLabel_removeLabel (c₀ : ℤ) (cs : List ℤ) (hne : cs ≠ [])
    (hlt : c₀ < maxLabel cs) :
    maxLabel (removeLabel c₀ cs) = maxLabel cs - 1 := by
  unfold removeLabel
  rw [maxLabel_map_mono _ (by intro x y h; split_ifs <;> omega) cs hne]
  rw [if_pos hlt]

theorem clusterData_removeLabel (c₀ : ℤ) (cs : List ℤ) (hs : List ℚ)
    (hlen : cs.length = hs.length) (hnone : ∀ x ∈ cs, x ≠ c₀) (c : ℤ) :
    clusterData (removeLabel c₀ cs) hs c
      = clusterData cs hs (if c < c₀ then c else c + 1) := by
  induction cs generalizing hs with
  | nil => cases hs <;> rfl
  | cons a t ih =>
    cases hs with
    | nil => simp at hlen
    | cons b u =>
      have ht : t.length = u.length := by simpa using hlen
      have hat : ∀ x ∈ t, x ≠ c₀ := fun x hx => hnone x (List.mem_cons_of_mem a hx)
      have ha : a ≠ c₀ := hnone a (List.mem_cons_self a t)
      show clusterData ((if c₀ < a then a - 1 else a) :: removeLabel c₀ t) (b :: u) c = _
      rw [clusterData_cons, clusterData_cons, ih u ht hat]
      split_ifs <;> first | rfl | (exfalso; omega)

theorem clusterData_eq_nil (c₀ : ℤ) (cs : List ℤ) (hs : List ℚ)
    (hnone : ∀ x ∈ cs, x ≠ c₀) :
    clusterData cs hs c₀ = [] := by
  induction cs generalizing hs with
  | nil => rfl
  | cons a t ih =>
    cases hs with
    | nil => rfl
    | cons b u =>
      rw [clusterData_cons,
        if_neg (hnone a (List.mem_cons_self a t)),
        ih u (fun x hx => hnone x (List.mem_cons_of_mem a hx))]

/-- Removing the index `n₀` of a zero term from a sum over `0 .. K-1` and
re-indexing the tail leaves the sum unchanged. -/
theorem sum_range_remove {M : Type} [AddCommMonoid M] (g : ℕ → M) (K n₀ : ℕ)
    (hc : n₀ + 1 < K) (hzero : g n₀ = 0) :
    ((List.range (K - 1)).map (fun c => g (if c < n₀ then c else c + 1))).sum
      = ((List.range K).map g).sum := by
  rw [range_split (K - 1) n₀ (by omega), range_split K n₀ (by omega),
    List.map_append, List.sum_append, List.map_append, List.sum_append,
    List.map_cons, List.sum_cons, List.map_cons, List.sum_cons]
  have hpre : (List.range n₀).map (fun c => g (if c < n₀ then c else c + 1))
      = (List.range n₀).map g := by
    apply List.map_congr_left
    intro c hcr
    rw [if_pos (List.mem_range.mp hcr)]
  have htailR : List.range' (n₀ + 1) (K - (n₀ + 1))
      = (n₀ + 1) :: List.range' (n₀ + 2) (K - (n₀ + 2)) := by
    rw [show K - (n₀ + 1) = (K - (n₀ + 2)) + 1 from by omega, List.range'_succ]
  have htail : (List.range' (n₀ + 1) ((K - 1) - (n₀ + 1))).map
        (fun c => g (if c < n₀ then c else c + 1))
      = (List.range' (n₀ + 2) (K - (n₀ + 2))).map g := by
    rw [List.range'_eq_map_range, List.range'_eq_map_range, List.map_map,
      List.map_map, show (K - 1) - (n₀ + 1) = K - (n₀ + 2) from by omega]
    apply List.map_congr_left
    intro i _
    show g (if n₀ + 1 + i < n₀ then n₀ + 1 + i else n₀ + 1 + i + 1)
        = g (n₀ + 2 + i)
    rw [if_neg (by omega)]
    congr 1
    omega
  rw [hpre, if_neg (lt_irrefl n₀), htail, htailR, List.map_cons, List.sum_cons,
    hzero, zero_add]

/-- **C8.**  For every input to unadjusted `fom` with at least one clustered
item, a cluster ID `c₀` in `0 .. max(clusters)` with zero members neither
crashes the accumulation loop nor perturbs the result: its subset is empty,
contributing `0` squared deviations and `0` to the clustered count, so `fom`
returns a value and the value equals that of the same input with the empty
cluster ID removed (labels above `c₀` shifted down) — the inputs differ only
in the cluster count `k`, which unadjusted `fom` never uses beyond the
accumulation range. -/
theorem fom_empty_cluster_harmless (cs : List ℤ) (hs : List ℚ) (c₀ : ℤ)
    (hlen : cs.length = hs.length) (hc0 : 0 ≤ c₀) (hcmax : c₀ ≤ maxLabel cs)
    (hnone : ∀ x ∈ cs, x ≠ c₀) (hclustered : ∃ x ∈ cs, 0 ≤ x) :
    (∃ r : ℝ, fom cs hs false = .ok r)
    ∧ fom cs hs false = fom (removeLabel c₀ cs) hs false := by
  have hne : cs ≠ [] := by
    rcases hclustered with ⟨x, hx, _⟩
    intro h
    rw [h] at hx
    cases hx
  have hlt : c₀ < maxLabel cs := by
    have h1 := hnone _ (maxLabel_mem cs hne)
    omega
  have hne' : removeLabel c₀ cs ≠ [] := by
    cases cs with
    | nil => exact absurd rfl hne
    | cons a t => simp [removeLabel]
  have hmax' : maxLabel (removeLabel c₀ cs) = maxLabel cs - 1 :=
    maxLabel_removeLabel c₀ cs hne hlt
  have hk' : (numClusters (removeLabel c₀ cs)).toNat
      = (numClusters cs).toNat - 1 := by
    unfold numClusters
    omega
  have hcK : c₀.toNat + 1 < (numClusters cs).toNat := by
    unfold numClusters
    omega
  have hlen' : (removeLabel c₀ cs).length = hs.length := by
    rw [← hlen]
    exact List.length_map cs _
  have hif : ∀ c : ℕ,
      (if (c : ℤ) < c₀ then (c : ℤ) else (c : ℤ) + 1)
        = ((if c < c₀.toNat then c else c + 1 : ℕ) : ℤ) := by
    intro c
    by_cases h : c < c₀.toNat
    · rw [if_pos h, if_pos (by omega)]
    · rw [if_neg h, if_neg (by omega)]
      push_cast
      ring
  have hssd : fomSSD (removeLabel c₀ cs) hs = fomSSD cs hs := by
    unfold fomSSD
    rw [hk']
    have hcongr : (List.range ((numClusters cs).toNat - 1)).map
        (fun c : ℕ => ssdOf (clusterData (removeLabel c₀ cs) hs (c : ℤ)))
        = (List.range ((numClusters cs).toNat - 1)).map
          (fun c : ℕ => (fun c' : ℕ => ssdOf (clusterData cs hs (c' : ℤ)))
            (if c < c₀.toNat then c else c + 1)) := by
      apply List.map_congr_left
      intro c _
      rw [clusterData_removeLabel c₀ cs hs hlen hnone (c : ℤ), hif c]
    rw [hcongr]
    exact sum_range_remove (fun c' : ℕ => ssdOf (clusterData cs hs (c' : ℤ)))
      (numClusters cs).toNat c₀.toNat hcK
      (by show ssdOf (clusterData cs hs ((c₀.toNat : ℕ) : ℤ)) = 0
          rw [show ((c₀.toNat : ℕ) : ℤ) = c₀ from by omega,
            clusterData_eq_nil c₀ cs hs hnone]
          rfl)
  have hcount : fomCount (removeLabel c₀ cs) hs = fomCount cs hs := by
    unfold fomCount
    rw [hk']
    have hcongr : (List.range ((numClusters cs).toNat - 1)).map
        (fun c : ℕ => (clusterData (removeLabel c₀ cs) hs (c : ℤ)).length)
        = (List.range ((numClusters cs).toNat - 1)).map
          (fun c : ℕ => (fun c' : ℕ => (clusterData cs hs (c' : ℤ)).length)
            (if c < c₀.toNat then c else c + 1)) := by
      apply List.map_congr_left
      intro c _
      rw [clusterData_removeLabel c₀ cs hs hlen hnone (c : ℤ), hif c]
    rw [hcongr]
    exact sum_range_remove (fun c' : ℕ => (clusterData cs hs (c' : ℤ)).length)
      (numClusters cs).toNat c₀.toNat hcK
      (by show (clusterData cs hs ((c₀.toNat : ℕ) : ℤ)).length = 0
          rw [show ((c₀.toNat : ℕ) : ℤ) = c₀ from by omega,
            clusterData_eq_nil c₀ cs hs hnone]
          rfl)
  have hn : fomCount cs hs ≠ 0 := by
    rw [fomCount_eq_specN cs hs hlen]
    rcases hclustered with ⟨x, hx, hx0⟩
    have hpos : 0 < cs.countP (fun x => decide (0 ≤ x)) :=
      List.countP_pos_iff.mpr ⟨x, hx, decide_eq_true hx0⟩
    unfold specN
    omega
  have hcoreL := fomCore_false_eq cs hs hne hn
  have hcoreR := fomCore_false_eq (removeLabel c₀ cs) hs hne'
    (by rw [hcount]; exact hn)
  constructor
  · refine ⟨Real.sqrt ((fomSSD cs hs / (fomCount cs hs : ℚ) : ℚ) : ℝ)
      / Real.sqrt ((1 : ℚ) : ℝ), ?_⟩
    unfold fom
    rw [hcoreL]
    rfl
  · unfold fom
    rw [hcoreL, hcoreR, hssd, hcount]

/-- Witness for C8: `clusters = [0, 0, 3]` (clusters 1 and 2 empty; removing
ID 1 gives `[0, 0, 2]`). -/
theorem fom_empty_cluster_harmless_witness :
    (∃ r : ℝ, fom [0, 0, 3] [1, 3, 7] false = .ok r)
    ∧ fom [0, 0, 3] [1, 3, 7] false
        = fom (removeLabel 1 [0, 0, 3]) [1, 3, 7] false :=
  fom_empty_cluster_harmless [0, 0, 3] [1, 3, 7] 1
    (by decide) (by decide) (by decide) (by decide) (by decide)

/-! ### C9: `silhouette_stats` (spec-modelled)

`main.py` imports `silhouette_stats` from `ngcluster.evaluate` and consumes
it as `stats, summary = silhouette_stats(clusters, widths)` (logging
`summary['weighted_mean']`, `summary['min']`, `summary['max']` and writing
the per-cluster rows `cluster count mean min max`), but the function itself
is absent from the provided sources. -/

/-- One per-cluster record of `silhouette_stats` — cluster ID, member count
and the mean/min/max width of the cluster's items (the five columns written
by `main.py`). -/
structure ClusterStats where
  cluster : ℤ
  count : ℕ
  mean : ℚ
  min : ℚ
  max : ℚ
  deriving DecidableEq, Repr

/-- The overall summary of `silhouette_stats`. -/
structure SummaryStats where
  weighted_mean : ℚ
  min : ℚ
  max : ℚ
  deriving DecidableEq, Repr

/-- `min` of a nonempty list of widths. -/
def listMin (l : List ℚ) : ℚ := l.foldl min (l.headD 0)

/-- `max` of a nonempty list of widths. -/
def listMax (l : List ℚ) : ℚ := l.foldl max (l.headD 0)

/-- Modelled from the spec: the per-cluster row of `silhouette_stats` for
cluster ID `c` — absent (`none`) when the cluster has zero members. -/
def clusterRecord (clusters : List ℤ) (widths : List ℚ) (c : ℕ) :
    Option ClusterStats :=
  let ws := clusterData clusters widths (c : ℤ)
  if ws = [] then none
  else some ⟨(c : ℤ), ws.length, listMean ws, listMin ws, listMax ws⟩

/-- Modelled from the spec: `silhouette_stats(clusters, widths)` is imported
by `ngcluster/main.py` from `ngcluster.evaluate` but its definition is
missing from the provided sources.  Following the spec (§4.3/§6): group the
widths by cluster ID, producing count/mean/min/max per non-empty cluster
(zero-member clusters are absent rather than a spurious zero row), together
with a summary holding a cluster-size-weighted mean width plus the global
min and max width across items. -/
def silhouette_stats (clusters : List ℤ) (widths : List ℚ) :
    List ClusterStats × SummaryStats :=
  let recs := (List.range (numClusters clusters).toNat).filterMap
    (clusterRecord clusters widths)
  let weighted_mean :=
    ((recs.map (fun r => (r.count : ℚ) * r.mean)).sum)
      / ((recs.map (fun r => (r.count : ℚ))).sum)
  (recs, ⟨weighted_mean, listMin widths, listMax widths⟩)

/-- **C9** (spec-modelled).  `silhouette_stats` groups the widths by cluster
ID: every emitted record belongs to a non-empty cluster and carries that
cluster's member count and mean/min/max width; every non-empty cluster ID in
`0 .. max(clusters)` gets a record and every zero-member ID gets none; the
summary carries the cluster-size-weighted mean width (`Σ count·mean / Σ
count`) and the global min/max width across items. -/
theorem silhouette_stats_spec (clusters : List ℤ) (widths : List ℚ) (c : ℤ) :
    (∀ r ∈ (silhouette_stats clusters widths).1,
        clusterData clusters widths r.cluster ≠ []
        ∧ r.count = (clusterData clusters widths r.cluster).length
        ∧ r.mean = listMean (clusterData clusters widths r.cluster)
        ∧ r.min = listMin (clusterData clusters widths r.cluster)
        ∧ r.max = listMax (clusterData clusters widths r.cluster))
    ∧ (0 ≤ c → c < numClusters clusters →
        clusterData clusters widths c ≠ [] →
        ∃ r ∈ (silhouette_stats clusters widths).1, r.cluster = c)
    ∧ (clusterData clusters widths c = [] →
        ∀ r ∈ (silhouette_stats clusters widths).1, r.cluster ≠ c)
    ∧ (silhouette_stats clusters widths).2.weighted_mean
        = (((silhouette_stats clusters widths).1.map
              (fun r => (r.count : ℚ) * r.mean)).sum)
          / (((silhouette_stats clusters widths).1.map
              (fun r => (r.count : ℚ))).sum)
    ∧ (silhouette_stats clusters widths).2.min = listMin widths
    ∧ (silhouette_stats clusters widths).2.max = listMax widths := by
  have hmem : ∀ r, r ∈ (silhouette_stats clusters widths).1 ↔
      ∃ a ∈ List.range (numClusters clusters).toNat,
        clusterRecord clusters widths a = some r := by
    intro r
    exact List.mem_filterMap
  have hfields : ∀ (a : ℕ) (r : ClusterStats),
      clusterRecord clusters widths a = some r →
      clusterData clusters widths ((a : ℕ) : ℤ) ≠ []
      ∧ r = ⟨((a : ℕ) : ℤ), (clusterData clusters widths ((a : ℕ) : ℤ)).length,
          listMean (clusterData clusters widths ((a : ℕ) : ℤ)),
          listMin (clusterData clusters widths ((a : ℕ) : ℤ)),
          listMax (clusterData clusters widths ((a : ℕ) : ℤ))⟩ := by
    intro a r h
    unfold clusterRecord at h
    by_cases hws : clusterData clusters widths ((a : ℕ) : ℤ) = []
    · rw [if_pos hws] at h
      cases h
    · rw [if_neg hws] at h
      exact ⟨hws, (Option.some.inj h).symm⟩
  refine ⟨?_, ?_, ?_, rfl, rfl, rfl⟩
  · intro r hr
    rcases (hmem r).mp hr with ⟨a, _, hfa⟩
    rcases hfields a r hfa with ⟨hws, rfl⟩
    exact ⟨hws, rfl, rfl, rfl, rfl⟩
  · intro hc0 hck hne
    have ha : c.toNat ∈ List.range (numClusters clusters).toNat :=
      List.mem_range.mpr (by omega)
    have hcast : ((c.toNat : ℕ) : ℤ) = c := by omega
    refine ⟨⟨c, (clusterData clusters widths c).length,
      listMean (clusterData clusters widths c),
      listMin (clusterData clusters widths c),
      listMax (clusterData clusters widths c)⟩, ?_, rfl⟩
    apply (hmem _).mpr
    refine ⟨c.toNat, ha, ?_⟩
    unfold clusterRecord
    rw [hcast, if_neg hne]
  · intro hnil r hr hrc
    rcases (hmem r).mp hr with ⟨a, _, hfa⟩
    rcases hfields a r hfa with ⟨hws, rfl⟩
    rw [show (⟨((a : ℕ) : ℤ), _, _, _, _⟩ : ClusterStats).cluster
        = ((a : ℕ) : ℤ) from rfl] at hrc
    rw [hrc] at hws
    exact hws hnil

/-- Witness for C9: `clusters = [0, 0, 2, -1]` has a record for the
non-empty cluster `0`. -/
theorem silhouette_stats_spec_witness :
    ∃ r ∈ (silhouette_stats [0, 0, 2, -1] [1, 3, 5, 9]).1, r.cluster = 0 :=
  (silhouette_stats_spec [0, 0, 2, -1] [1, 3, 5, 9] 0).2.1
    (by decide) (by decide) (by decide)

end NGCluster
